import Mathlib

/-!
Verification of the bucketed batch scheduler and beam-search decoder of the
`tsf_nmt` neural machine translation repository (`translate.py`,
`nmt_model.py`), as a shallow embedding in Lean.

Conventions of the embedding:
* token ids are `Int` (the loaded data is a list of integer ids);
* floating point accumulators (losses, scores, learning rate, weights) are
  modelled as `ℚ`;
* file reading, `numpy` tensor plumbing and the TensorFlow session are
  abstracted away: the functions below operate on the already-parsed lists
  that the Python code manipulates;
* `random.choice` / `numpy.random.random_sample` draws are passed in as
  explicit arguments.
-/

namespace TsfNmt

/-- Modelled from the spec: `data_utils.PAD_ID` (the `data_utils` module is
not part of the repository sources; the spec fixes `PAD_ID = 0`). -/
def PAD_ID : Int := 0

/-- Modelled from the spec: `data_utils.GO_ID`, the start-of-sequence id
(ids 0-3 are reserved for PAD, GO, EOS, UNK in that order). -/
def GO_ID : Int := 1

/-- Modelled from the spec: `data_utils.EOS_ID`, the end-of-sequence id
appended to every target sentence at load time. -/
def EOS_ID : Int := 2

/-- One entry of the bucketed data set, as appended by `read_data`
(translate.py line 116): `(source_ids, source_ids reversed, target_ids)`,
where `target_ids` already carries the trailing `EOS_ID`. -/
abbrev Example := List Int × List Int × List Int

/-- translate.py lines 114-117: the `for bucket_id, (source_size,
target_size) in enumerate(_buckets)` loop with its `break`.  Walks the
bucket list and the per-bucket data set in parallel; appends the example to
the first bucket `(s, t)` with `len(source_ids) < s` and
`len(target_ids) < t`, leaving every other bucket unchanged; if no bucket
matches, the loop just ends and the pair is stored nowhere. -/
def storeLoop (source_ids source_ids_r target_ids : List Int) :
    List (Nat × Nat) → List (List Example) → List (List Example)
  | [], ds => ds
  | _ :: _, [] => []
  | (s, t) :: bs, d :: ds =>
    if source_ids.length < s ∧ target_ids.length < t then
      (d ++ [(source_ids, source_ids_r, target_ids)]) :: ds
    else
      d :: storeLoop source_ids source_ids_r target_ids bs ds

/-- translate.py lines 110-117: processing of one aligned (source, target)
line pair: reverse the source, append `EOS_ID` to the target, then store
the triple into the first fitting bucket. -/
def processPair (buckets : List (Nat × Nat)) (ds : List (List Example))
    (source target : List Int) : List (List Example) :=
  storeLoop source source.reverse (target ++ [EOS_ID]) buckets ds

/-- translate.py `read_data` (lines 83-119), with the file iteration
shallow-embedded: the aligned lines arrive as a list of already-parsed
(source ids, target ids) pairs, and the `max_size` cut is the caller's
`pairs.take`. -/
def read_data (buckets : List (Nat × Nat)) (pairs : List (List Int × List Int)) :
    List (List Example) :=
  pairs.foldl (fun ds p => processPair buckets ds p.1 p.2)
    (List.replicate buckets.length [])

/-- The classification condition of translate.py line 115, phrased on the
original target (before the `EOS_ID` append): bucket `b` fits the pair iff
`len(source) < b.1` and `len(target) + 1 < b.2`. -/
def fits (b : Nat × Nat) (source target : List Int) : Prop :=
  source.length < b.1 ∧ target.length + 1 < b.2

instance (b : Nat × Nat) (source target : List Int) :
    Decidable (fits b source target) := by
  unfold fits; infer_instance

lemma storeLoop_fits_iff (src target : List Int) (s t : Nat) :
    (src.length < s ∧ (target ++ [EOS_ID]).length < t) ↔ fits (s, t) src target := by
  simp [fits, List.length_append]

lemma storeLoop_none (src src_r target : List Int) :
    ∀ (buckets : List (Nat × Nat)) (ds : List (List Example)),
      (∀ i, i < buckets.length → ¬ fits (buckets.getD i (0, 0)) src target) →
      storeLoop src src_r (target ++ [EOS_ID]) buckets ds = ds := by
  intro buckets
  induction buckets with
  | nil => intro ds _; cases ds <;> rfl
  | cons b bs ih =>
    intro ds h
    cases ds with
    | nil => cases b; rfl
    | cons d rest =>
      obtain ⟨s, t⟩ := b
      have h0 : ¬ fits (s, t) src target := by
        simpa using h 0 (Nat.succ_pos _)
      rw [storeLoop]
      rw [if_neg]
      · rw [ih rest]
        intro i hi
        simpa using h (i + 1) (by simp only [List.length_cons]; omega)
      · rw [storeLoop_fits_iff]; exact h0

lemma storeLoop_found (src src_r target : List Int) :
    ∀ (buckets : List (Nat × Nat)) (ds : List (List Example)) (j : Nat),
      ds.length = buckets.length →
      j < buckets.length →
      fits (buckets.getD j (0, 0)) src target →
      (∀ i, i < j → ¬ fits (buckets.getD i (0, 0)) src target) →
      storeLoop src src_r (target ++ [EOS_ID]) buckets ds =
        ds.set j (ds.getD j [] ++ [(src, src_r, target ++ [EOS_ID])]) := by
  intro buckets
  induction buckets with
  | nil => intro ds j _ hj; simp at hj
  | cons b bs ih =>
    intro ds j hlen hj hfit hmin
    cases ds with
    | nil => simp at hlen
    | cons d rest =>
      obtain ⟨s, t⟩ := b
      cases j with
      | zero =>
        have h0 : fits (s, t) src target := by simpa using hfit
        rw [storeLoop, if_pos ((storeLoop_fits_iff src target s t).mpr h0)]
        simp
      | succ j' =>
        have h0 : ¬ fits (s, t) src target := by
          simpa using hmin 0 (Nat.succ_pos _)
        rw [storeLoop, if_neg (fun hc => h0 ((storeLoop_fits_iff src target s t).mp hc))]
        rw [ih rest j' (by simpa using hlen) (by simpa using hj) (by simpa using hfit)
          (fun i hi => by simpa using hmin (i + 1) (Nat.succ_lt_succ hi))]
        simp

/-- **C1**: a sentence pair processed by `read_data` is appended to the
smallest-index bucket `j` with `len(source) < maxSourceLen_j` and
`len(target) + 1 < maxTargetLen_j` (the `+ 1` being the `EOS_ID` appended
at load time before classification), all other buckets unchanged; if no
bucket qualifies, the bucketed data set is returned unchanged (the pair is
silently dropped, no error). -/
theorem read_data_smallest_bucket (buckets : List (Nat × Nat))
    (ds : List (List Example)) (source target : List Int)
    (hlen : ds.length = buckets.length)
    (_hsorted : buckets.Pairwise (fun a b => a.1 ≤ b.1 ∧ a.2 ≤ b.2)) :
    (∀ j, j < buckets.length → fits (buckets.getD j (0, 0)) source target →
      (∀ i, i < j → ¬ fits (buckets.getD i (0, 0)) source target) →
      processPair buckets ds source target =
        ds.set j (ds.getD j [] ++ [(source, source.reverse, target ++ [EOS_ID])])) ∧
    ((∀ i, i < buckets.length → ¬ fits (buckets.getD i (0, 0)) source target) →
      processPair buckets ds source target = ds) := by
  constructor
  · intro j hj hfit hmin
    exact storeLoop_found source source.reverse target buckets ds j hlen hj hfit hmin
  · intro h
    exact storeLoop_none source source.reverse target buckets ds h

/-- Witness for C1: with the first two default buckets, the pair
`([3, 4], [7])` (source length 2, target length 1 + EOS) lands in bucket
0 and bucket 1 stays empty. -/
theorem read_data_smallest_bucket_w :
    processPair [(5, 10), (10, 15)] [[], []] [3, 4] [7] =
      [[([3, 4], [4, 3], [7, EOS_ID])], []] := by
  have h := (read_data_smallest_bucket [(5, 10), (10, 15)] [[], []] [3, 4] [7]
    (by decide) (by decide)).1 0 (by decide) (by decide) (fun i hi => by omega)
  simpa using h

/-! ### `NMTModel.get_batch` (nmt_model.py lines 270-335) -/

lemma getD_range_map {α : Type} (f : Nat → α) (n i : Nat) (d : α) (h : i < n) :
    ((List.range n).map f).getD i d = f i := by
  have hlt : i < ((List.range n).map f).length := by simpa using h
  rw [List.getD_eq_getElem _ _ hlt]
  simp

/-- nmt_model.py lines 296-299: encoder rows are right-padded with
`PAD_ID` up to `encoder_size` (`[PAD_ID] * (encoder_size - len)`; in
Python a negative count yields `[]`, exactly as `Nat` subtraction does). -/
def padEncoderInput (encoder_size : Nat) (xs : List Int) : List Int :=
  xs ++ List.replicate (encoder_size - xs.length) PAD_ID

/-- nmt_model.py lines 301-304: the per-example decoder row
`[GO_ID] + decoder_input + [PAD_ID] * (decoder_size - len - 1)`.  When the
target is too long, `decoder_pad_size` is negative and the Python list
multiplication yields `[]` (so does the saturating `Nat` subtraction): the
row is built without error and without padding. -/
def padDecoderInput (decoder_size : Nat) (ys : List Int) : List Int :=
  GO_ID :: (ys ++ List.replicate (decoder_size - ys.length - 1) PAD_ID)

/-- The quadruple returned by `get_batch`: time-major (length-index first)
encoder/decoder batches and target weights. -/
structure Batch where
  encoder_inputs : List (List Int)
  encoder_inputs_r : List (List Int)
  decoder_inputs : List (List Int)
  target_weights : List (List ℚ)
deriving DecidableEq

/-- nmt_model.py `get_batch` (lines 270-335), with `random.choice`
shallow-embedded: `chosen` is the list of sampled examples, one per batch
slot, so `batch_size = chosen.length`.  The weight at `(t, b)` follows
lines 326-333: at `t = decoder_size - 1` the Python `or` short-circuits
before the (there never assigned) `target` variable is read, so the stale
`target` value is never consulted and the weight is `0`; otherwise
`target = decoder_inputs[b][t + 1]` and the weight is `0` iff it is
`PAD_ID`. -/
def get_batch (encoder_size decoder_size : Nat) (chosen : List Example) : Batch :=
  let batch_size := chosen.length
  let encoder_inputs := chosen.map (fun e => padEncoderInput encoder_size e.1)
  let encoder_inputs_r := chosen.map (fun e => padEncoderInput encoder_size e.2.1)
  let decoder_inputs := chosen.map (fun e => padDecoderInput decoder_size e.2.2)
  { encoder_inputs := (List.range encoder_size).map (fun t =>
      (List.range batch_size).map (fun b => (encoder_inputs.getD b []).getD t PAD_ID))
    encoder_inputs_r := (List.range encoder_size).map (fun t =>
      (List.range batch_size).map (fun b => (encoder_inputs_r.getD b []).getD t PAD_ID))
    decoder_inputs := (List.range decoder_size).map (fun t =>
      (List.range batch_size).map (fun b => (decoder_inputs.getD b []).getD t PAD_ID))
    target_weights := (List.range decoder_size).map (fun t =>
      (List.range batch_size).map (fun b =>
        if t = decoder_size - 1 ∨ (decoder_inputs.getD b []).getD (t + 1) PAD_ID = PAD_ID
        then (0 : ℚ) else 1)) }

/-- **C2**: in every batch built by `get_batch` from bucket
`(enc, dec)`, for `t < dec` and `b < batch_size` the target weight at
`(t, b)` is `0` iff `t = dec - 1` or the decoder input one step ahead,
`decoder_inputs[t+1][b]`, is `PAD_ID`, and it is `1` otherwise; in
particular the last row is all zeros, also for `dec = 1` where the PAD
test is short-circuited away rather than evaluated on an undefined
target. -/
theorem get_batch_target_weights (enc dec : Nat) (chosen : List Example)
    (t b : Nat) (ht : t < dec) (hb : b < chosen.length) :
    ((((get_batch enc dec chosen).target_weights.getD t []).getD b 1 = 0) ↔
      (t = dec - 1 ∨ (t + 1 < dec ∧
        (((get_batch enc dec chosen).decoder_inputs.getD (t + 1) []).getD b PAD_ID = PAD_ID)))) ∧
    (((get_batch enc dec chosen).target_weights.getD t []).getD b 1 = 0 ∨
      ((get_batch enc dec chosen).target_weights.getD t []).getD b 1 = 1) := by
  have hw : ((get_batch enc dec chosen).target_weights.getD t []).getD b 1 =
      (if t = dec - 1 ∨
          ((chosen.map (fun e => padDecoderInput dec e.2.2)).getD b []).getD (t + 1) PAD_ID = PAD_ID
        then (0 : ℚ) else 1) := by
    simp only [get_batch]
    rw [getD_range_map _ _ _ _ ht, getD_range_map _ _ _ _ hb]
  by_cases hlast : t = dec - 1
  · constructor
    · constructor
      · intro _; exact Or.inl hlast
      · intro _; rw [hw, if_pos (Or.inl hlast)]
    · left; rw [hw, if_pos (Or.inl hlast)]
  · have ht1 : t + 1 < dec := by omega
    have hd : ((get_batch enc dec chosen).decoder_inputs.getD (t + 1) []).getD b PAD_ID =
        ((chosen.map (fun e => padDecoderInput dec e.2.2)).getD b []).getD (t + 1) PAD_ID := by
      simp only [get_batch]
      rw [getD_range_map _ _ _ _ ht1, getD_range_map _ _ _ _ hb]
    rw [hw, hd]
    by_cases hpad :
        ((chosen.map (fun e => padDecoderInput dec e.2.2)).getD b []).getD (t + 1) PAD_ID = PAD_ID
    · rw [if_pos (Or.inr hpad)]
      exact ⟨⟨fun _ => Or.inr ⟨ht1, hpad⟩, fun _ => rfl⟩, Or.inl rfl⟩
    · rw [if_neg (by tauto)]
      constructor
      · constructor
        · intro h; exact absurd h (by norm_num)
        · intro h
          rcases h with h | ⟨_, h⟩
          · exact absurd h hlast
          · exact absurd h hpad
      · right; rfl

/-- Witness for C2 at bucket `(5, 10)`, one example, position `(0, 0)`. -/
theorem get_batch_target_weights_w :
    (((get_batch 5 10 [([3, 4], [4, 3], [7, 2])]).target_weights.getD 0 []).getD 0 1 = 0 ↔
      ((0 : Nat) = 10 - 1 ∨ (0 + 1 < 10 ∧
        (((get_batch 5 10 [([3, 4], [4, 3], [7, 2])]).decoder_inputs.getD (0 + 1) []).getD 0
          PAD_ID = PAD_ID)))) := by
  exact (get_batch_target_weights 5 10 [([3, 4], [4, 3], [7, 2])] 0 0 (by decide) (by decide)).1

/-- Counterexample to **C9** as stated: for bucket target length `2` and
the oversized target `[5, 6]` (`len + 1 = 3 > 2`) batch building does not
fail at all — there is no `BucketOverflowError` (or any `raise`) in
`get_batch` — and the row is not padded to exactly `decLen` positions: the
negative pad count becomes the empty list, the per-example row is
`[GO_ID, 5, 6]` of length `3 ≠ 2`, and the time-major re-indexing then
silently keeps only the first `decLen` positions `[[GO_ID], [5]]`. -/
theorem get_batch_overflow_cex :
    (padDecoderInput 2 [5, 6]).length = 3 ∧ (padDecoderInput 2 [5, 6]).length ≠ 2 ∧
    padDecoderInput 2 [5, 6] = [GO_ID, 5, 6] ∧
    (get_batch 2 2 [([1], [1], [5, 6])]).decoder_inputs = [[GO_ID], [5]] := by decide

/-- **C9 amended**: each sampled target is prefixed with `GO_ID` and
right-padded with `PAD_ID`, giving a row of length
`max decLen (len + 1)`: exactly `decLen` when the target fits
(`len + 1 ≤ decLen`); when it is too long no error is raised — the pad
count saturates to zero and the row is just `GO_ID :: targetIds`, longer
than `decLen` (the time-major batch step then keeps only the first
`decLen` positions, i.e. the sequence is effectively truncated, not
rejected). -/
theorem get_batch_pad_amended (dec : Nat) (ys : List Int) :
    (padDecoderInput dec ys).length = max dec (ys.length + 1)
    ∧ (padDecoderInput dec ys).take (ys.length + 1) = GO_ID :: ys
    ∧ (∀ i, ys.length + 1 ≤ i → i < (padDecoderInput dec ys).length →
        (padDecoderInput dec ys).getD i 0 = PAD_ID)
    ∧ (dec < ys.length + 1 → padDecoderInput dec ys = GO_ID :: ys) := by
  refine ⟨?_, ?_, ?_, ?_⟩
  · simp [padDecoderInput]; omega
  · simp [padDecoderInput, List.take_append]
  · intro i h1 h2
    simp only [padDecoderInput, List.length_cons, List.length_append,
      List.length_replicate] at h2
    have hi : i - 1 - ys.length < dec - ys.length - 1 := by omega
    have hlt : i < (padDecoderInput dec ys).length := by
      simp only [padDecoderInput, List.length_cons, List.length_append,
        List.length_replicate]; omega
    rw [List.getD_eq_getElem _ _ hlt]
    simp only [padDecoderInput]
    rcases Nat.exists_eq_add_of_le h1 with ⟨j, hj⟩
    subst hj
    simp only [show ys.length + 1 + j = ys.length + j + 1 from by omega]
    rw [List.getElem_cons_succ]
    rw [List.getElem_append_right (by omega)]
    simp
  · intro h
    have : dec - ys.length - 1 = 0 := by omega
    simp [padDecoderInput, this]

/-- Witness for the amended C9: with bucket length `4` and target
`[5, 6]`, position `3` of the padded row is `PAD_ID`. -/
theorem get_batch_pad_amended_w :
    (padDecoderInput 4 [5, 6]).getD 3 0 = PAD_ID :=
  (get_batch_pad_amended 4 [5, 6]).2.2.1 3 (by decide) (by decide)

/-! ### `NMTModel.step` (nmt_model.py lines 207-268) -/

/-- The `input_feed` dictionary built by `step` (nmt_model.py lines
240-252), split by placeholder family: encoder positions `0..E-1`,
reversed-encoder positions `0..E-1`, decoder positions `0..D` (the last
one the all-zeros extra target row), weight positions `0..D-1`. -/
structure StepFeed where
  encoder_feed : List (List Int)
  encoder_feed_r : List (List Int)
  decoder_feed : List (List Int)
  weights_feed : List (List ℚ)
deriving DecidableEq

/-- nmt_model.py `step`, lines 228-252: the length validation (three
`raise ValueError` branches, modelled as `Except.error`) followed by the
construction of the input feed; the `session.run` itself is external.  The
`(D+1)`-th decoder position is filled by `step` itself with
`np.zeros([batch_size])` (lines 250-252). -/
def stepPrepare (buckets : List (Nat × Nat)) (batch_size : Nat) (bucket_id : Nat)
    (encoder_inputs encoder_inputs_r decoder_inputs : List (List Int))
    (target_weights : List (List ℚ)) : Except String StepFeed :=
  let encoder_size := (buckets.getD bucket_id (0, 0)).1
  let decoder_size := (buckets.getD bucket_id (0, 0)).2
  if encoder_inputs.length ≠ encoder_size then
    .error "Encoder length must be equal to the one in bucket"
  else if decoder_inputs.length ≠ decoder_size then
    .error "Decoder length must be equal to the one in bucket"
  else if target_weights.length ≠ decoder_size then
    .error "Weights length must be equal to the one in bucket"
  else .ok
    { encoder_feed := (List.range encoder_size).map (fun l => encoder_inputs.getD l [])
      encoder_feed_r := (List.range encoder_size).map (fun l => encoder_inputs_r.getD l [])
      decoder_feed := ((List.range decoder_size).map (fun l => decoder_inputs.getD l []))
          ++ [List.replicate batch_size 0]
      weights_feed := (List.range decoder_size).map (fun l => target_weights.getD l []) }

lemma range_map_getD {α : Type} (l : List α) (d : α) :
    (List.range l.length).map (fun i => l.getD i d) = l := by
  apply List.ext_getElem
  · simp
  · intro n h1 h2
    simp [List.getD_eq_getElem l d h2, List.getElem?_eq_getElem h2]

/-- **C10**: for a valid `bucket_id` naming bucket `(E, D)`, `step`
raises `ValueError` — before any model computation — iff the encoder
input list does not have length `E` or the decoder input or weight list
does not have length `D`; when the lengths match, the built feed carries
the caller's `D` decoder rows plus an extra all-zeros `(D+1)`-th row
supplied by `step` itself. -/
theorem step_checks (buckets : List (Nat × Nat)) (batch_size bucket_id E D : Nat)
    (encoder_inputs encoder_inputs_r decoder_inputs : List (List Int))
    (target_weights : List (List ℚ))
    (_hbid : bucket_id < buckets.length)
    (hbd : buckets.getD bucket_id (0, 0) = (E, D)) :
    ((∃ e, stepPrepare buckets batch_size bucket_id encoder_inputs encoder_inputs_r
        decoder_inputs target_weights = .error e) ↔
      (encoder_inputs.length ≠ E ∨ decoder_inputs.length ≠ D ∨ target_weights.length ≠ D)) ∧
    (encoder_inputs.length = E → decoder_inputs.length = D → target_weights.length = D →
      stepPrepare buckets batch_size bucket_id encoder_inputs encoder_inputs_r
          decoder_inputs target_weights = .ok
        { encoder_feed := encoder_inputs
          encoder_feed_r := (List.range E).map (fun l => encoder_inputs_r.getD l [])
          decoder_feed := decoder_inputs ++ [List.replicate batch_size 0]
          weights_feed := target_weights }) := by
  constructor
  · simp only [stepPrepare, hbd]
    by_cases h1 : encoder_inputs.length = E
    · by_cases h2 : decoder_inputs.length = D
      · by_cases h3 : target_weights.length = D
        · simp [h1, h2, h3]
        · simp [h1, h2, h3]
      · simp [h1, h2]
    · simp [h1]
  · intro h1 h2 h3
    subst h1
    subst h2
    simp only [stepPrepare, hbd, ne_eq, not_true_eq_false, if_false, reduceIte]
    rw [range_map_getD encoder_inputs ([] : List Int),
      range_map_getD decoder_inputs ([] : List Int), ← h3,
      range_map_getD target_weights ([] : List ℚ)]
    simp

/-- Witness for C10: bucket `(1, 1)`, matching lengths — the feed holds
the one decoder row plus the zero row. -/
theorem step_checks_w :
    stepPrepare [(1, 1)] 1 0 [[5]] [[9]] [[7]] [[1]] =
      .ok { encoder_feed := [[5]], encoder_feed_r := [[9]],
            decoder_feed := [[7], [0]], weights_feed := [[1]] } := by
  have h := (step_checks [(1, 1)] 1 0 1 1 [[5]] [[9]] [[7]] [[1]] (by decide) (by decide)).2
    rfl rfl rfl
  simpa using h

/-! ### the training-loop checkpoint block (translate.py lines 224-246) -/

/-- Python negative slicing `l[-n:]` for a patience count `n ≥ 0`
(translate.py lines 234 and 244): the last `n` elements for `n ≥ 1`, and
the whole list for `n = 0` (`l[-0:] = l[0:] = l`). -/
def lastSlice (n : Nat) (l : List ℚ) : List ℚ :=
  if n = 0 then l else l.drop (l.length - n)

/-- Python `max()` over a list of floats.  The training loop applies it
only to nonempty slices (the length guard is checked first); on `[]` the
model returns `0` where Python would raise `ValueError`. -/
def pymax (l : List ℚ) : ℚ := l.foldl max (l.headD 0)

/-- The mutable training-loop variables that the checkpoint block reads
and writes: the running loss accumulator of the current interval (already
divided by `steps_per_checkpoint`, i.e. the interval's average loss), the
history `previous_losses`, and the learning rate. -/
structure TrainState where
  loss : ℚ
  previous_losses : List ℚ
  learning_rate : ℚ

/-- Result of one checkpoint block: the updated variables and whether the
`EARLY STOP!` break was taken. -/
structure CkptResult where
  state : TrainState
  early_stop : Bool

/-- translate.py lines 232-246, in source order: (1) lines 233-235 decay
the learning rate if `len(previous_losses) > lr_rate_patience - 1` and the
current `loss` exceeds `max(previous_losses[-lr_rate_patience:])`;
(2) line 236 appends `loss` to `previous_losses`; (3) line 241 resets
`loss` to `0.0` (the checkpoint save itself is external I/O); (4) lines
243-246 evaluate the early-stop condition on the just-reset `loss` and
the post-append history.  The patience comparisons are on Python ints, so
they are taken over `Int`. -/
def checkpointBlock (lr_rate_patience early_stop_patience : Nat) (decay_factor : ℚ)
    (st : TrainState) : CkptResult :=
  let lr1 := if (st.previous_losses.length : Int) > (lr_rate_patience : Int) - 1
                ∧ st.loss > pymax (lastSlice lr_rate_patience st.previous_losses)
             then st.learning_rate * decay_factor else st.learning_rate
  let prev1 := st.previous_losses ++ [st.loss]
  let loss1 : ℚ := 0
  let stop := decide ((prev1.length : Int) > (early_stop_patience : Int) - 1
                ∧ loss1 > pymax (lastSlice early_stop_patience prev1))
  { state := { loss := loss1, previous_losses := prev1, learning_rate := lr1 },
    early_stop := stop }

lemma le_foldl_max (l : List ℚ) : ∀ init : ℚ, init ≤ l.foldl max init := by
  induction l with
  | nil => intro init; simp
  | cons x xs ih =>
    intro init
    calc init ≤ max init x := le_max_left _ _
    _ ≤ xs.foldl max (max init x) := ih _
    _ = (x :: xs).foldl max init := by simp [List.foldl_cons]

lemma pymax_nonneg (l : List ℚ) (hne : l ≠ []) (hnn : ∀ x ∈ l, 0 ≤ x) :
    0 ≤ pymax l := by
  have hh : l.headD 0 ∈ l := by
    cases l with
    | nil => exact absurd rfl hne
    | cons x xs => simp
  calc (0 : ℚ) ≤ l.headD 0 := hnn _ hh
  _ ≤ pymax l := le_foldl_max l _

/-- **C6**: the loss accumulator is reset to `0` before the early-stop
check, so that check compares `0` against the maximum of the last
`early_stop_patience` recorded losses; whenever at least that many losses
have been recorded and all of them are nonnegative, the early-stop branch
is not taken. -/
theorem early_stop_not_taken (lrp esp : Nat) (decay : ℚ) (st : TrainState)
    (hesp : 1 ≤ esp)
    (hlen : esp ≤ st.previous_losses.length + 1)
    (hnn : ∀ x ∈ st.previous_losses ++ [st.loss], 0 ≤ x) :
    (checkpointBlock lrp esp decay st).state.loss = 0 ∧
    (checkpointBlock lrp esp decay st).early_stop = false := by
  constructor
  · rfl
  · simp only [checkpointBlock]
    rw [decide_eq_false]
    rintro ⟨-, h2⟩
    have hslice : lastSlice esp (st.previous_losses ++ [st.loss]) ≠ [] := by
      unfold lastSlice
      rw [if_neg (by omega)]
      intro hc
      have := congrArg List.length hc
      simp at this
      omega
    have hsub : ∀ x ∈ lastSlice esp (st.previous_losses ++ [st.loss]), 0 ≤ x := by
      intro x hx
      apply hnn
      unfold lastSlice at hx
      rw [if_neg (by omega)] at hx
      exact List.drop_subset _ _ hx
    have := pymax_nonneg _ hslice hsub
    exact absurd h2 (not_lt.mpr this)

/-- Witness for C6: patience 1, one recorded loss, nonnegative — no early
stop. -/
theorem early_stop_not_taken_w :
    (checkpointBlock 3 1 (99/100)
      { loss := 1, previous_losses := [2], learning_rate := 3 }).early_stop = false :=
  (early_stop_not_taken 3 1 (99/100)
    { loss := 1, previous_losses := [2], learning_rate := 3 }
    (by decide) (by decide) (by decide)).2

/-- **C7**: at each checkpoint the learning rate is multiplied by the
decay factor iff the history already holds at least `lr_rate_patience`
entries and the current interval's average loss strictly exceeds the
maximum of the last `lr_rate_patience` recorded losses (the comparison
uses the pre-append history, i.e. the current loss is appended only
afterwards); for a nonnegative rate and a decay factor `≤ 1` the rate
never increases. -/
theorem lr_decay_iff (lrp esp : Nat) (decay : ℚ) (st : TrainState)
    (hlr : 0 ≤ st.learning_rate) (hd1 : decay ≤ 1) :
    ((checkpointBlock lrp esp decay st).state.learning_rate =
      if lrp ≤ st.previous_losses.length ∧
          pymax (lastSlice lrp st.previous_losses) < st.loss
      then st.learning_rate * decay else st.learning_rate) ∧
    (checkpointBlock lrp esp decay st).state.learning_rate ≤ st.learning_rate := by
  have hcond : ((st.previous_losses.length : Int) > (lrp : Int) - 1
        ∧ st.loss > pymax (lastSlice lrp st.previous_losses)) ↔
      (lrp ≤ st.previous_losses.length ∧
        pymax (lastSlice lrp st.previous_losses) < st.loss) := by
    constructor
    · rintro ⟨h1, h2⟩; exact ⟨by omega, h2⟩
    · rintro ⟨h1, h2⟩; exact ⟨by omega, h2⟩
  have heq : (checkpointBlock lrp esp decay st).state.learning_rate =
      if lrp ≤ st.previous_losses.length ∧
          pymax (lastSlice lrp st.previous_losses) < st.loss
      then st.learning_rate * decay else st.learning_rate := by
    simp only [checkpointBlock]
    exact if_congr hcond rfl rfl
  refine ⟨heq, ?_⟩
  rw [heq]
  split
  · exact mul_le_of_le_one_right hlr hd1
  · exact le_refl _

/-- Witness for C7: patience 1, history `[1]`, current loss `5` — the
rate halves and does not increase. -/
theorem lr_decay_iff_w :
    (checkpointBlock 1 1 (1/2)
      { loss := 5, previous_losses := [1], learning_rate := 2 }).state.learning_rate ≤ 2 :=
  (lr_decay_iff 1 1 (1/2) { loss := 5, previous_losses := [1], learning_rate := 2 }
    (by norm_num) (by norm_num)).2

/-! ### bucket selection per training step (translate.py lines 185-204) -/

/-- translate.py lines 185-192: the cumulative bucket scale
`sum(train_bucket_sizes[:i+1]) / train_total_size`, built from the
per-bucket population `sizes`. -/
def train_buckets_scale (sizes : List Nat) : List ℚ :=
  (List.range sizes.length).map
    (fun i => (((sizes.take (i + 1)).sum : ℚ) / (sizes.sum : ℚ)))

/-- translate.py lines 202-204: given the uniform draw `r`, pick
`min([i for i in xrange(len(train_buckets_scale)) if
train_buckets_scale[i] > random_number_01])`.  Python `min` of an empty
list would raise; the model returns `none` in that case. -/
def chooseBucket (sizes : List Nat) (r : ℚ) : Option Nat :=
  ((List.range (train_buckets_scale sizes).length).filter
    (fun i => decide (r < (train_buckets_scale sizes).getD i 0))).min?

lemma scale_getD (sizes : List Nat) (i : Nat) (h : i < sizes.length) :
    (train_buckets_scale sizes).getD i 0 =
      ((sizes.take (i + 1)).sum : ℚ) / (sizes.sum : ℚ) := by
  unfold train_buckets_scale
  exact getD_range_map _ _ _ _ h

lemma scale_length (sizes : List Nat) :
    (train_buckets_scale sizes).length = sizes.length := by
  simp [train_buckets_scale]

lemma min?_spec {l : List Nat} {a : Nat} (h : l.min? = some a) :
    a ∈ l ∧ ∀ b ∈ l, a ≤ b := by
  rwa [List.min?_eq_some_iff (fun a => le_refl a) (fun a b => min_choice a b)
    (fun a b c => le_min_iff)] at h

lemma sum_take_succ_getD (sizes : List Nat) (i : Nat) (h : i < sizes.length) :
    (sizes.take (i + 1)).sum = (sizes.take i).sum + sizes.getD i 0 := by
  rw [List.sum_take_succ _ _ h, List.getD_eq_getElem _ _ h]

lemma chooseBucket_spec (sizes : List Nat) (r : ℚ)
    (htot : 0 < sizes.sum) (hr0 : 0 ≤ r) (hr1 : r < 1) :
    (chooseBucket sizes r).isSome ∧
    ∀ i, chooseBucket sizes r = some i → sizes.getD i 0 ≠ 0 := by
  have hne : sizes.length ≠ 0 := by
    intro hc
    rw [List.length_eq_zero] at hc
    subst hc
    simp at htot
  have hsum : ((sizes.sum : ℚ)) ≠ 0 := by
    exact_mod_cast (by omega : sizes.sum ≠ 0)
  have hlast : sizes.length - 1 ∈ (List.range (train_buckets_scale sizes).length).filter
      (fun i => decide (r < (train_buckets_scale sizes).getD i 0)) := by
    rw [List.mem_filter]
    constructor
    · rw [List.mem_range, scale_length]; omega
    · rw [decide_eq_true_eq, scale_getD _ _ (by omega)]
      have htk : sizes.take (sizes.length - 1 + 1) = sizes :=
        List.take_of_length_le (by omega)
      rw [htk, div_self hsum]
      exact hr1
  constructor
  · cases hcb : chooseBucket sizes r with
    | some _ => rfl
    | none =>
      unfold chooseBucket at hcb
      rw [List.min?_eq_none_iff] at hcb
      rw [hcb] at hlast
      simp at hlast
  · intro i hi
    unfold chooseBucket at hi
    obtain ⟨hmem, hminimal⟩ := min?_spec hi
    rw [List.mem_filter, List.mem_range, scale_length] at hmem
    obtain ⟨hilt, hscale⟩ := hmem
    rw [decide_eq_true_eq, scale_getD _ _ hilt] at hscale
    intro h0
    cases i with
    | zero =>
      have hz : ((sizes.take (0 + 1)).sum : ℚ) = 0 := by
        have h1 : (sizes.take (0 + 1)).sum = 0 := by
          rw [sum_take_succ_getD sizes 0 hilt, h0]
          simp
        exact_mod_cast h1
      rw [hz] at hscale
      norm_num at hscale
      exact absurd hscale (not_lt.mpr hr0)
    | succ j =>
      have hj : j < sizes.length := by omega
      have hsum_eq : (sizes.take (j + 1 + 1)).sum = (sizes.take (j + 1)).sum := by
        rw [sum_take_succ_getD sizes (j + 1) hilt, h0]
        simp
      have hc : ((sizes.take (j + 1 + 1)).sum : ℚ) = ((sizes.take (j + 1)).sum : ℚ) := by
        exact_mod_cast congrArg Nat.cast hsum_eq
      rw [hc] at hscale
      have hjmem : j ∈ (List.range (train_buckets_scale sizes).length).filter
          (fun i => decide (r < (train_buckets_scale sizes).getD i 0)) := by
        rw [List.mem_filter]
        constructor
        · rw [List.mem_range, scale_length]; omega
        · rw [decide_eq_true_eq, scale_getD _ _ hj]
          exact hscale
      have := hminimal j hjmem
      omega

/-- **C8**: for every population vector with positive total and every
uniform draw `r ∈ [0, 1)`, the bucket selection
`min { i | cumulativeFraction i > r }` succeeds (the candidate set is
nonempty), never selects a bucket with zero examples, and in particular
with populations `[10, 0, 90]` index `1` is selected for no draw. -/
theorem bucket_scale_draw (sizes : List Nat) (r : ℚ)
    (htot : 0 < sizes.sum) (hr0 : 0 ≤ r) (hr1 : r < 1) :
    (chooseBucket sizes r).isSome ∧
    (∀ i, chooseBucket sizes r = some i → sizes.getD i 0 ≠ 0) ∧
    chooseBucket [10, 0, 90] r ≠ some 1 := by
  obtain ⟨h1, h2⟩ := chooseBucket_spec sizes r htot hr0 hr1
  refine ⟨h1, h2, ?_⟩
  intro hc
  have h3 := (chooseBucket_spec [10, 0, 90] r (by norm_num) hr0 hr1).2 1 hc
  exact h3 (by rfl)

/-- Witness for C8 at `sizes = [1]`, `r = 1/2`: the empty middle bucket
of `[10, 0, 90]` is never drawn. -/
theorem bucket_scale_draw_w :
    chooseBucket [10, 0, 90] (1/2) ≠ some 1 :=
  (bucket_scale_draw [1] (1/2) (by norm_num) (by norm_num) (by norm_num)).2.2

/-! ### `gen_sample` beam search (translate.py lines 376-450)

The decoder state type is a parameter `σ`; the score type is a parameter
`α` (a linearly ordered additive domain with a zero — `ℚ` models the
float scores of the code, `Int` gives executable witnesses).  `f_next`
stands for the external model callback: given the last words and states
of the live hypotheses it yields, per hypothesis, the row of per-word
scores `-log(next_p[i])` (the embedding takes the negated logs directly,
since the code immediately computes `hyp_scores[:, None] -
numpy.log(next_p)`) and the next decoder state. -/

/-- Insert index `i` into an index list sorted ascending by score,
placing `i` after all indices of score `≤` its own. -/
def argsortInsert {α : Type} [LinearOrder α] [Zero α] (l : List α) (i : Nat) :
    List Nat → List Nat
  | [] => [i]
  | j :: js => if l.getD i 0 < l.getD j 0 then i :: j :: js else j :: argsortInsert l i js

/-- `numpy.argsort` (translate.py line 401), modelled as a deterministic
insertion sort of the indices `0..n-1` ascending by value.  The source
calls `argsort` with its default kind, whose tie order is a property of
the numpy library, not of this repository; this model breaks ties by
ascending index. -/
def argsort {α : Type} [LinearOrder α] [Zero α] (l : List α) : List Nat :=
  (List.range l.length).foldl (fun acc i => argsortInsert l i acc) []

/-- The mutable variables of the `gen_sample` search loop (translate.py
lines 378-397): finished samples and their scores, live hypotheses with
their scores and states, the live/dead counters, and the `next_w` /
`next_state` arrays fed to `f_next`. -/
structure BeamState (α σ : Type) where
  sample : List (List Int)
  sample_score : List α
  hyp_samples : List (List Int)
  hyp_scores : List α
  hyp_states : List σ
  live_k : Nat
  dead_k : Nat
  next_w : List Int
  next_state : List σ

/-- translate.py lines 423-432: walk the freshly extended hypotheses in
order and separate them into (finished samples, finished scores) — those
whose last token equals `0` — and (live samples, live scores, live
states). -/
def splitHyps {α σ : Type} : List (List Int) → List α → List σ →
    (List (List Int) × List α) × (List (List Int) × List α × List σ)
  | [], _, _ => (([], []), ([], [], []))
  | s :: ss, c :: cs, st :: sts =>
    let r := splitHyps ss cs sts
    if s.getLast? = some 0 then ((s :: r.1.1, c :: r.1.2), r.2)
    else (r.1, (s :: r.2.1, c :: r.2.2.1, st :: r.2.2.2))
  | _ :: _, _, _ => (([], []), ([], [], []))

/-- translate.py lines 417-442: commit the split hypotheses to the loop
state — finished ones are appended to `sample`/`sample_score` and counted
in `dead_k`, live ones become the new hypothesis set with `live_k` their
number, and `next_w` holds each live hypothesis's last word
(`w[-1]`). -/
def beamCollect {α σ : Type} (st : BeamState α σ) (new_hyp_samples : List (List Int))
    (new_hyp_scores : List α) (new_hyp_states : List σ) : BeamState α σ :=
  let split := splitHyps new_hyp_samples new_hyp_scores new_hyp_states
  { sample := st.sample ++ split.1.1
    sample_score := st.sample_score ++ split.1.2
    hyp_samples := split.2.1
    hyp_scores := split.2.2.1
    hyp_states := split.2.2.2
    live_k := split.2.1.length
    dead_k := st.dead_k + split.1.1.length
    next_w := split.2.1.map (fun w => w.getLast?.getD 0)
    next_state := split.2.2.2 }

/-- translate.py lines 399-415: build the candidate score matrix
`cand_scores[i][j] = hyp_scores[i] + (-log next_p[i][j])` (`next_p` here
already carries the negated logs), flatten it, keep the `k - dead_k`
lowest-ranked flat indices, decode them into parent index
`ti = rank / voc_size` and word `wi = rank % voc_size` (Python 2 integer
division), and extend each parent.  Line 414 of the source reads
`costs[ti]` — the cost at position `trans_indices[idx]` of the
rank-ordered `costs` array — not `costs[idx]`; the model reproduces
this. -/
def selectCandidates {α σ : Type} [LinearOrder α] [Add α] [Zero α] [Inhabited σ]
    (hyp_samples : List (List Int)) (hyp_scores : List α)
    (next_p : List (List α)) (new_state : List σ) (k dead_k : Nat) :
    List (List Int) × List α × List σ :=
  let cand_scores := List.zipWith (fun s row => row.map (fun c => s + c)) hyp_scores next_p
  let cand_flat := cand_scores.flatten
  let ranks_flat := (argsort cand_flat).take (k - dead_k)
  let voc_size := (next_p.headD []).length
  let trans_indices := ranks_flat.map (fun x => x / voc_size)
  let word_indices := ranks_flat.map (fun x => x % voc_size)
  let costs := ranks_flat.map (fun x => cand_flat.getD x 0)
  let new_hyp_samples := (List.range ranks_flat.length).map (fun idx =>
    hyp_samples.getD (trans_indices.getD idx 0) [] ++
      [((word_indices.getD idx 0 : Nat) : Int)])
  let new_hyp_scores := (List.range ranks_flat.length).map (fun idx =>
    costs.getD (trans_indices.getD idx 0) 0)
  let new_hyp_states := (List.range ranks_flat.length).map (fun idx =>
    new_state.getD (trans_indices.getD idx 0) default)
  (new_hyp_samples, new_hyp_scores, new_hyp_states)

/-- One iteration of the `for ii in xrange(maxlen)` body (translate.py
lines 393-442): call `f_next` on the live set, select and extend the
candidates, and split them into finished and live. -/
def beamStep {α σ : Type} [LinearOrder α] [Add α] [Zero α] [Inhabited σ]
    (f_next : List Int → List σ → List (List α) × List σ) (k : Nat)
    (st : BeamState α σ) : BeamState α σ :=
  let ret := f_next st.next_w st.next_state
  let sel := selectCandidates st.hyp_samples st.hyp_scores ret.1 ret.2 k st.dead_k
  beamCollect st sel.1 sel.2.1 sel.2.2

/-- translate.py lines 378-391: one live hypothesis with the empty
sequence and score zero, the bos indicator `-1` as `next_w`, and the
initial decoder state from `f_init`. -/
def initBeam (α σ : Type) [Zero α] (s0 : σ) : BeamState α σ :=
  { sample := [], sample_score := [], hyp_samples := [[]], hyp_scores := [0],
    hyp_states := [], live_k := 1, dead_k := 0, next_w := [-1], next_state := [s0] }

/-- The bounded search loop of translate.py lines 393-442: at most `fuel`
iterations, breaking as soon as `new_live_k < 1` or `dead_k >= k` (lines
436-439). -/
def beamLoop {α σ : Type} [LinearOrder α] [Add α] [Zero α] [Inhabited σ]
    (f_next : List Int → List σ → List (List α) × List σ) (k : Nat) :
    Nat → BeamState α σ → BeamState α σ
  | 0, st => st
  | fuel + 1, st =>
    let st1 := beamStep f_next k st
    if st1.live_k < 1 ∨ k ≤ st1.dead_k then st1
    else beamLoop f_next k fuel st1

/-- translate.py `gen_sample` (lines 376-450): run the bounded loop and
then flush every remaining live hypothesis into the output (lines
444-448, `sample += hyp_samples[:live_k]` guarded by `live_k > 0`),
without appending an EOS token. -/
def gen_sample (α σ : Type) [LinearOrder α] [Add α] [Zero α] [Inhabited σ]
    (f_next : List Int → List σ → List (List α) × List σ) (s0 : σ)
    (k maxlen : Nat) : List (List Int) × List α :=
  let st := beamLoop f_next k maxlen (initBeam α σ s0)
  if 0 < st.live_k then
    (st.sample ++ st.hyp_samples.take st.live_k,
     st.sample_score ++ st.hyp_scores.take st.live_k)
  else (st.sample, st.sample_score)

/-- The `f_next` of the C3 failing input: vocabulary of size 3 with
per-word scores `[5, 1, 2]` for every hypothesis. -/
def fnextC3 : List Int → List Unit → List (List Int) × List Unit :=
  fun ws _ => (ws.map (fun _ => [5, 1, 2]), ws.map (fun _ => ()))

/-- **C3** (falsified by this evaluation — the code diverges from the
claim): with `k = 2`, `maxlen = 1`, one initial hypothesis of score `0`
and score row `[5, 1, 2]`, the two selected candidates are the flat
indices `ranks_flat = [1, 2]`, whose own candidate scores are
`cand_flat[1] = 1` and `cand_flat[2] = 2`; but `gen_sample` records
`[1, 1]`: the second candidate receives `costs[trans_indices[1]] =
costs[0] = 1` (translate.py line 414 indexes the rank-ordered `costs`
array with the parent index `ti`), not its own score `2`. -/
theorem gen_sample_scores_bug :
    gen_sample Int Unit fnextC3 () 2 1 = ([[1], [2]], [1, 1]) ∧
    (((argsort ([5, 1, 2] : List Int)).take 2) = [1, 2]) ∧
    (([5, 1, 2] : List Int).getD (((argsort ([5, 1, 2] : List Int)).take 2).getD 1 0) 0 = 2) ∧
    ((2 : Int) ≠ 1) := by decide

/-- The shape invariant of the search loop: the parallel hypothesis lists
agree with the `live_k`/`dead_k` counters, `dead_k + live_k ≤ k`, and
every finished sample ends in the EOS id `0`. -/
def BeamInv {α σ : Type} (k : Nat) (st : BeamState α σ) : Prop :=
  st.hyp_samples.length = st.live_k ∧
  st.hyp_scores.length = st.live_k ∧
  st.sample.length = st.dead_k ∧
  st.sample_score.length = st.dead_k ∧
  st.dead_k + st.live_k ≤ k ∧
  (∀ s ∈ st.sample, s.getLast? = some 0)

/-- All finished and live sequences have length at most `n`. -/
def BeamLen {α σ : Type} (n : Nat) (st : BeamState α σ) : Prop :=
  (∀ s ∈ st.sample, s.length ≤ n) ∧ (∀ s ∈ st.hyp_samples, s.length ≤ n)

/-- No live hypothesis ends in the EOS id `0`. -/
def LiveNoEos {α σ : Type} (st : BeamState α σ) : Prop :=
  ∀ s ∈ st.hyp_samples, s.getLast? ≠ some 0

lemma splitHyps_sizes {α σ : Type} :
    ∀ (ss : List (List Int)) (cs : List α) (sts : List σ),
      cs.length = ss.length → sts.length = ss.length →
      (splitHyps ss cs sts).1.1.length + (splitHyps ss cs sts).2.1.length = ss.length ∧
      (splitHyps ss cs sts).1.2.length = (splitHyps ss cs sts).1.1.length ∧
      (splitHyps ss cs sts).2.2.1.length = (splitHyps ss cs sts).2.1.length ∧
      (splitHyps ss cs sts).2.2.2.length = (splitHyps ss cs sts).2.1.length := by
  intro ss
  induction ss with
  | nil => intro cs sts _ _; simp [splitHyps]
  | cons s ss ih =>
    intro cs sts hcs hsts
    cases cs with
    | nil => simp at hcs
    | cons c cs =>
      cases sts with
      | nil => simp at hsts
      | cons st sts =>
        obtain ⟨i1, i2, i3, i4⟩ := ih cs sts (by simpa using hcs) (by simpa using hsts)
        by_cases h : s.getLast? = some 0
        · simp only [splitHyps, h]
          simp only [if_pos]
          refine ⟨by simp; omega, by simp; omega, by simpa using i3, by simpa using i4⟩
        · simp only [splitHyps, if_neg h]
          refine ⟨by simp; omega, by simpa using i2, by simp; omega, by simp; omega⟩

lemma splitHyps_fin_mem {α σ : Type} :
    ∀ (ss : List (List Int)) (cs : List α) (sts : List σ) (s : List Int),
      s ∈ (splitHyps ss cs sts).1.1 → s ∈ ss ∧ s.getLast? = some 0 := by
  intro ss
  induction ss with
  | nil => intro cs sts s hs; simp [splitHyps] at hs
  | cons x ss ih =>
    intro cs sts s hs
    cases cs with
    | nil => simp [splitHyps] at hs
    | cons c cs =>
      cases sts with
      | nil => simp [splitHyps] at hs
      | cons st sts =>
        by_cases h : x.getLast? = some 0
        · simp only [splitHyps, if_pos h] at hs
          rcases List.mem_cons.mp hs with h1 | h1
          · subst h1; exact ⟨List.mem_cons_self _ _, h⟩
          · obtain ⟨hm, hl⟩ := ih cs sts s h1
            exact ⟨List.mem_cons_of_mem _ hm, hl⟩
        · simp only [splitHyps, if_neg h] at hs
          obtain ⟨hm, hl⟩ := ih cs sts s hs
          exact ⟨List.mem_cons_of_mem _ hm, hl⟩

lemma splitHyps_live_mem {α σ : Type} :
    ∀ (ss : List (List Int)) (cs : List α) (sts : List σ) (s : List Int),
      s ∈ (splitHyps ss cs sts).2.1 → s ∈ ss ∧ s.getLast? ≠ some 0 := by
  intro ss
  induction ss with
  | nil => intro cs sts s hs; simp [splitHyps] at hs
  | cons x ss ih =>
    intro cs sts s hs
    cases cs with
    | nil => simp [splitHyps] at hs
    | cons c cs =>
      cases sts with
      | nil => simp [splitHyps] at hs
      | cons st sts =>
        by_cases h : x.getLast? = some 0
        · simp only [splitHyps, if_pos h] at hs
          obtain ⟨hm, hl⟩ := ih cs sts s hs
          exact ⟨List.mem_cons_of_mem _ hm, hl⟩
        · simp only [splitHyps, if_neg h] at hs
          rcases List.mem_cons.mp hs with h1 | h1
          · subst h1; exact ⟨List.mem_cons_self _ _, h⟩
          · obtain ⟨hm, hl⟩ := ih cs sts s h1
            exact ⟨List.mem_cons_of_mem _ hm, hl⟩

lemma beamCollect_inv {α σ : Type} (k : Nat) (st : BeamState α σ)
    (ns : List (List Int)) (ncs : List α) (nsts : List σ)
    (hinv : BeamInv k st) (hm : ns.length ≤ k - st.dead_k)
    (hcs : ncs.length = ns.length) (hsts : nsts.length = ns.length) :
    BeamInv k (beamCollect st ns ncs nsts) ∧ LiveNoEos (beamCollect st ns ncs nsts) := by
  obtain ⟨h1, h2, h3, h4, h5, h6⟩ := hinv
  obtain ⟨hs1, hs2, hs3, hs4⟩ := splitHyps_sizes ns ncs nsts hcs hsts
  constructor
  · refine ⟨rfl, ?_, ?_, ?_, ?_, ?_⟩
    · simpa [beamCollect] using hs3
    · simp [beamCollect, h3]
    · simp [beamCollect, h4, hs2]
    · show st.dead_k + (splitHyps ns ncs nsts).1.1.length +
        (splitHyps ns ncs nsts).2.1.length ≤ k
      omega
    · intro s hs
      simp only [beamCollect, List.mem_append] at hs
      rcases hs with hs | hs
      · exact h6 s hs
      · exact (splitHyps_fin_mem ns ncs nsts s hs).2
  · intro s hs
    simp only [beamCollect] at hs
    exact (splitHyps_live_mem ns ncs nsts s hs).2

lemma beamCollect_len {α σ : Type} (bound : Nat) (st : BeamState α σ)
    (ns : List (List Int)) (ncs : List α) (nsts : List σ)
    (hsample : ∀ s ∈ st.sample, s.length ≤ bound)
    (hns : ∀ s ∈ ns, s.length ≤ bound) :
    BeamLen bound (beamCollect st ns ncs nsts) := by
  constructor
  · intro s hs
    simp only [beamCollect, List.mem_append] at hs
    rcases hs with hs | hs
    · exact hsample s hs
    · exact hns s (splitHyps_fin_mem ns ncs nsts s hs).1
  · intro s hs
    simp only [beamCollect] at hs
    exact hns s (splitHyps_live_mem ns ncs nsts s hs).1

lemma getD_length_le (l : List (List Int)) (i : Nat) (bound : Nat)
    (h : ∀ x ∈ l, x.length ≤ bound) : (l.getD i []).length ≤ bound := by
  by_cases hi : i < l.length
  · rw [List.getD_eq_getElem _ _ hi]
    exact h _ (List.getElem_mem hi)
  · rw [List.getD_eq_default _ _ (le_of_not_lt hi)]
    simp

lemma selectCandidates_sizes {α σ : Type} [LinearOrder α] [Add α] [Zero α] [Inhabited σ]
    (hyp_samples : List (List Int)) (hyp_scores : List α)
    (next_p : List (List α)) (new_state : List σ) (k dead_k : Nat) :
    (selectCandidates hyp_samples hyp_scores next_p new_state k dead_k).2.1.length =
      (selectCandidates hyp_samples hyp_scores next_p new_state k dead_k).1.length ∧
    (selectCandidates hyp_samples hyp_scores next_p new_state k dead_k).2.2.length =
      (selectCandidates hyp_samples hyp_scores next_p new_state k dead_k).1.length ∧
    (selectCandidates hyp_samples hyp_scores next_p new_state k dead_k).1.length ≤
      k - dead_k := by
  refine ⟨by simp [selectCandidates], by simp [selectCandidates], ?_⟩
  simp only [selectCandidates, List.length_map, List.length_range, List.length_take]
  exact min_le_left _ _

lemma selectCandidates_len {α σ : Type} [LinearOrder α] [Add α] [Zero α] [Inhabited σ]
    (hyp_samples : List (List Int)) (hyp_scores : List α)
    (next_p : List (List α)) (new_state : List σ) (k dead_k : Nat) (n : Nat)
    (h : ∀ x ∈ hyp_samples, x.length ≤ n) :
    ∀ s ∈ (selectCandidates hyp_samples hyp_scores next_p new_state k dead_k).1,
      s.length ≤ n + 1 := by
  intro s hs
  simp only [selectCandidates, List.mem_map] at hs
  obtain ⟨idx, _, hmk⟩ := hs
  subst hmk
  simp only [List.length_append, List.length_cons, List.length_nil]
  exact Nat.add_le_add (getD_length_le hyp_samples _ n h) (le_refl 1)

lemma beamStep_inv {α σ : Type} [LinearOrder α] [Add α] [Zero α] [Inhabited σ]
    (f_next : List Int → List σ → List (List α) × List σ) (k : Nat)
    (st : BeamState α σ) (n : Nat)
    (hinv : BeamInv k st) (hlen : BeamLen n st) :
    BeamInv k (beamStep f_next k st) ∧ BeamLen (n + 1) (beamStep f_next k st) ∧
    LiveNoEos (beamStep f_next k st) := by
  obtain ⟨hss, hsel2, hsel3⟩ := selectCandidates_sizes st.hyp_samples st.hyp_scores
    (f_next st.next_w st.next_state).1 (f_next st.next_w st.next_state).2 k st.dead_k
  have hcoll := beamCollect_inv k st _ _ _ hinv hsel3 hss hsel2
  have hclen := beamCollect_len (n + 1) st
    (selectCandidates st.hyp_samples st.hyp_scores
      (f_next st.next_w st.next_state).1 (f_next st.next_w st.next_state).2 k st.dead_k).1
    (selectCandidates st.hyp_samples st.hyp_scores
      (f_next st.next_w st.next_state).1 (f_next st.next_w st.next_state).2 k st.dead_k).2.1
    (selectCandidates st.hyp_samples st.hyp_scores
      (f_next st.next_w st.next_state).1 (f_next st.next_w st.next_state).2 k st.dead_k).2.2
    (fun s hs => le_trans (hlen.1 s hs) (Nat.le_succ n))
    (selectCandidates_len st.hyp_samples st.hyp_scores
      (f_next st.next_w st.next_state).1 (f_next st.next_w st.next_state).2 k st.dead_k n
      hlen.2)
  exact ⟨hcoll.1, hclen, hcoll.2⟩

lemma BeamLen_mono {α σ : Type} {a b : Nat} {st : BeamState α σ}
    (hab : a ≤ b) (h : BeamLen a st) : BeamLen b st :=
  ⟨fun s hs => le_trans (h.1 s hs) hab, fun s hs => le_trans (h.2 s hs) hab⟩

lemma beamLoop_inv {α σ : Type} [LinearOrder α] [Add α] [Zero α] [Inhabited σ]
    (f_next : List Int → List σ → List (List α) × List σ) (k : Nat) :
    ∀ (fuel : Nat) (st : BeamState α σ) (n : Nat),
      BeamInv k st → BeamLen n st → LiveNoEos st →
      BeamInv k (beamLoop f_next k fuel st) ∧
      BeamLen (n + fuel) (beamLoop f_next k fuel st) ∧
      LiveNoEos (beamLoop f_next k fuel st) := by
  intro fuel
  induction fuel with
  | zero =>
    intro st n h1 h2 h3
    exact ⟨h1, by simpa using h2, h3⟩
  | succ fuel ih =>
    intro st n h1 h2 h3
    obtain ⟨s1, s2, s3⟩ := beamStep_inv f_next k st n h1 h2
    simp only [beamLoop]
    split
    · exact ⟨s1, BeamLen_mono (by omega) s2, s3⟩
    · have hrec := ih (beamStep f_next k st) (n + 1) s1 s2 s3
      exact ⟨hrec.1, BeamLen_mono (by omega) hrec.2.1, hrec.2.2⟩

/-- **C5**: `gen_sample` terminates within `maxlen` search steps by
construction (the loop is structurally bounded by `maxlen` fuel and
breaks as soon as no live hypothesis remains or `k` hypotheses are
finished); the returned sample list holds at most `k` hypotheses with as
many scores, every returned token sequence has length at most `maxlen`,
every hypothesis moved to `sample` during the search ends in the EOS id
`0`, and every live hypothesis remaining at exhaustion (flushed into the
output without a terminating EOS) does not end in `0`. -/
theorem gen_sample_bounds {α σ : Type} [LinearOrder α] [Add α] [Zero α] [Inhabited σ]
    (f_next : List Int → List σ → List (List α) × List σ) (s0 : σ) (k maxlen : Nat)
    (hk : 1 ≤ k) (_hml : 1 ≤ maxlen) :
    (gen_sample α σ f_next s0 k maxlen).1.length ≤ k ∧
    (gen_sample α σ f_next s0 k maxlen).2.length =
      (gen_sample α σ f_next s0 k maxlen).1.length ∧
    (∀ s ∈ (gen_sample α σ f_next s0 k maxlen).1, s.length ≤ maxlen) ∧
    (∀ s ∈ (beamLoop f_next k maxlen (initBeam α σ s0)).sample, s.getLast? = some 0) ∧
    (∀ s ∈ (beamLoop f_next k maxlen (initBeam α σ s0)).hyp_samples,
      s.getLast? ≠ some 0) := by
  have h0 : BeamInv k (initBeam α σ s0) := by
    refine ⟨rfl, rfl, rfl, rfl, by simpa [initBeam] using hk, ?_⟩
    intro s hs
    simp [initBeam] at hs
  have hl0 : BeamLen 0 (initBeam α σ s0) := by
    constructor
    · intro s hs; simp [initBeam] at hs
    · intro s hs; simp [initBeam] at hs; subst hs; simp
  have hn0 : LiveNoEos (initBeam α σ s0) := by
    intro s hs
    simp [initBeam] at hs
    subst hs
    simp
  obtain ⟨hi, hlen, hne⟩ := beamLoop_inv f_next k maxlen (initBeam α σ s0) 0 h0 hl0 hn0
  rw [Nat.zero_add] at hlen
  set stf := beamLoop f_next k maxlen (initBeam α σ s0) with hstf
  obtain ⟨j1, j2, j3, j4, j5, j6⟩ := hi
  refine ⟨?_, ?_, ?_, j6, hne⟩
  · unfold gen_sample
    rw [← hstf]
    by_cases hlive : 0 < stf.live_k
    · rw [if_pos hlive]
      show (stf.sample ++ stf.hyp_samples.take stf.live_k).length ≤ k
      simp only [List.length_append, List.length_take]
      omega
    · rw [if_neg hlive]
      show stf.sample.length ≤ k
      omega
  · unfold gen_sample
    rw [← hstf]
    by_cases hlive : 0 < stf.live_k
    · rw [if_pos hlive]
      show (stf.sample_score ++ stf.hyp_scores.take stf.live_k).length =
        (stf.sample ++ stf.hyp_samples.take stf.live_k).length
      simp only [List.length_append, List.length_take]
      omega
    · rw [if_neg hlive]
      show stf.sample_score.length = stf.sample.length
      omega
  · unfold gen_sample
    rw [← hstf]
    by_cases hlive : 0 < stf.live_k
    · rw [if_pos hlive]
      intro s hs
      have hs1 : s ∈ stf.sample ++ stf.hyp_samples.take stf.live_k := hs
      rcases List.mem_append.mp hs1 with h | h
      · exact hlen.1 s h
      · exact hlen.2 s (List.take_subset _ _ h)
    · rw [if_neg hlive]
      intro s hs
      have hs1 : s ∈ stf.sample := hs
      exact hlen.1 s hs1

/-- The `f_next` of the C5 witness: vocabulary of size 2, constant
scores. -/
def fnextW : List Int → List Unit → List (List Int) × List Unit :=
  fun ws _ => (ws.map (fun _ => [1, 2]), ws.map (fun _ => ()))

/-- Witness for C5 at `k = 2`, `maxlen = 2`. -/
theorem gen_sample_bounds_w :
    (gen_sample Int Unit fnextW () 2 2).1.length ≤ 2 :=
  (gen_sample_bounds fnextW () 2 2 (by decide) (by decide)).1

end TsfNmt
